import Mathlib

/-!
Verification of the file-backed message store (`filestore.go`, package
`msgstore`) against its natural-language specification.

The store is shallowly embedded: file contents are explicit values
(`List Char` for the text files, `List Nat` for the raw body bytes), the
operating-system state is a `Disk` record holding the five per-session
files, and every store operation is a pure function from store state (and,
where the original performs fallible OS writes, an explicit failure-outcome
flag for those writes) to store state paired with an optional error, mirroring
the Go control flow statement by statement.
-/

/-! ## Go formatting and parsing primitives (fmt "%d", "%019d", strconv.Atoi) -/

/-- The ASCII digit character for `d < 10` (code 48 + d). -/
def digitChar (d : Nat) : Char := Char.ofNat (48 + d)

/-- Decimal rendering worker: emits the digits of `n` in front of `acc`.
`f` is fuel; `natToChars` supplies enough for any `n`. -/
def natToCharsAux : Nat → Nat → List Char → List Char
  | 0, _, acc => acc
  | f+1, n, acc =>
    if n < 10 then digitChar n :: acc
    else natToCharsAux f (n / 10) (digitChar (n % 10) :: acc)

/-- Decimal rendering of a `Nat`, as Go `fmt`/`strconv` render a
nonnegative integer. -/
def natToChars (n : Nat) : List Char := natToCharsAux (n+1) n []

/-- Go `fmt` verb `%d` for a (possibly negative) int. -/
def fmtInt (i : Int) : List Char :=
  if i < 0 then '-' :: natToChars i.natAbs else natToChars i.toNat

/-- Left zero-padding to width `w` (no-op if already at least that wide). -/
def zeroPad (w : Nat) (cs : List Char) : List Char :=
  List.replicate (w - cs.length) '0' ++ cs

/-- Go `fmt` verb `%019d`: minimum width 19, zero padded, sign (if any)
in front of the padding. -/
def fmt019 (i : Int) : List Char :=
  if i < 0 then '-' :: zeroPad 18 (natToChars i.natAbs)
  else zeroPad 19 (natToChars i.toNat)

/-- Numeric value of an ASCII digit character. -/
def charVal (c : Char) : Nat := c.toNat - 48

/-- Left-to-right accumulation of a decimal digit string; `none` at the
first non-digit character. -/
def parseDigitsAux : List Char → Nat → Option Nat
  | [], acc => some acc
  | c :: cs, acc => if c.isDigit then parseDigitsAux cs (acc * 10 + charVal c) else none

/-- All-digits parse of a nonempty string. -/
def parseDigits (cs : List Char) : Option Nat :=
  if cs = [] then none else parseDigitsAux cs 0

/-- Model of `strconv.Atoi`: optional sign, then a nonempty run of digits
making up the whole string; values outside the 64-bit int range are an
error (`none`), as `Atoi` reports `ErrRange` there. -/
def atoi (cs : List Char) : Option Int :=
  match cs with
  | [] => none
  | c :: rest =>
    if c = '-' then
      (parseDigits rest).bind fun v =>
        if v ≤ 2^63 then some (-(v : Int)) else none
    else if c = '+' then
      (parseDigits rest).bind fun v =>
        if v ≤ 2^63 - 1 then some ((v : Int)) else none
    else
      (parseDigits (c :: rest)).bind fun v =>
        if v ≤ 2^63 - 1 then some ((v : Int)) else none

/-! ## Time

The session creation time is abstracted to a `Nat` tick. `marshalTime` /
`unmarshalTime` model `time.Time.MarshalText` / `UnmarshalText`: a canonical
text encoding whose parse fails on any other content. -/

def marshalTime (t : Nat) : List Char := natToChars t

def unmarshalTime (cs : List Char) : Option Nat := parseDigits cs

/-! ## The header file format

`SaveMessage` appends lines `"<seqNum>,<offset>,<size>\n"`; `populateCache`
re-reads them with `fmt.Fscanf(f, "%d,%d,%d\n", ...)` in a loop that stops
when one application does not scan exactly three ints. `Fscanf` semantics,
modelled field by field: a `%d` skips leading blanks (spaces and tabs, never
newlines) and reads an optionally signed maximal digit run, subject to the
64-bit range of the underlying conversion; a literal `,` must match the next
input character exactly; and the `\n` ending the format consumes zero or more
blanks followed by a single newline OR THE END OF THE INPUT — so a trailing
line of 3-int shape with no newline (e.g. one truncated by a crash
mid-append) is still consumed as a full entry. -/

/-- The text of one header line, without the trailing newline. -/
def lineBody (seqNum offset size : Int) : List Char :=
  fmtInt seqNum ++ ',' :: (fmtInt offset ++ ',' :: fmtInt size)

/-- The full header line appended by `SaveMessage`. -/
def headerLine (seqNum offset size : Int) : List Char :=
  lineBody seqNum offset size ++ ['\n']

/-- The blank characters the scanner skips where newlines stay significant
(`Fscanf` skips any non-newline space; store content only ever holds these). -/
def isBlank (c : Char) : Bool := c = ' ' || c = '\t'

/-- Drop leading blanks. -/
def skipBlanks : List Char → List Char
  | [] => []
  | c :: cs => if isBlank c then skipBlanks cs else c :: cs

/-- Maximal leading run of decimal digits, and the rest. -/
def takeDigits : List Char → List Char × List Char
  | [] => ([], [])
  | c :: cs =>
    if c.isDigit then
      let p := takeDigits cs
      (c :: p.1, p.2)
    else ([], c :: cs)

/-- The input's first character (if any) is not a digit: a digit run read
before it was maximal. -/
def headNotDigit : List Char → Bool
  | [] => true
  | c :: _ => !c.isDigit

/-- One `%d` after its blank-skipping: optional sign, then a nonempty maximal
digit run, value-checked against the 64-bit int range (out-of-range input is
a conversion error and fails the scan). -/
def scanIntAfter : List Char → Option (Int × List Char)
  | [] => none
  | c :: rest =>
    if c = '-' then
      let p := takeDigits rest
      match parseDigits p.1 with
      | some v => if v ≤ 2^63 then some (-(v : Int), p.2) else none
      | none => none
    else if c = '+' then
      let p := takeDigits rest
      match parseDigits p.1 with
      | some v => if v ≤ 2^63 - 1 then some ((v : Int), p.2) else none
      | none => none
    else
      let p := takeDigits (c :: rest)
      match parseDigits p.1 with
      | some v => if v ≤ 2^63 - 1 then some ((v : Int), p.2) else none
      | none => none

/-- One `%d` item of the format. -/
def scanInt (cs : List Char) : Option (Int × List Char) := scanIntAfter (skipBlanks cs)

/-- A literal (non-space) format character must match the next input
character exactly. -/
def scanChar (c : Char) : List Char → Option (List Char)
  | [] => none
  | x :: xs => if x = c then some xs else none

/-- The `\n` ending the format: zero or more blanks, then a single newline
or the end of the input. -/
def scanNewlineOrEnd (cs : List Char) : Option (List Char) :=
  match skipBlanks cs with
  | [] => some []
  | c :: rest => if c = '\n' then some rest else none

/-- One application of `fmt.Fscanf(f, "%d,%d,%d\n", ...)`: the parsed entry
and the unconsumed input, or `none` when the application does not yield
three ints (then the loop breaks, the partial values unstored). -/
def scanEntry (cs : List Char) : Option ((Int × Int × Int) × List Char) :=
  match scanInt cs with
  | none => none
  | some (a, cs1) =>
    match scanChar ',' cs1 with
    | none => none
    | some cs2 =>
      match scanInt cs2 with
      | none => none
      | some (b, cs3) =>
        match scanChar ',' cs3 with
        | none => none
        | some cs4 =>
          match scanInt cs4 with
          | none => none
          | some (c, cs5) =>
            match scanNewlineOrEnd cs5 with
            | none => none
            | some rest => some ((a, b, c), rest)

/-- The `Fscanf` loop of `populateCache`: scan entries from the start until
an application fails. `f` is fuel; a successful application consumes at
least five characters, so the content's length is enough. -/
def scanHeader : Nat → List Char → List (Int × Int × Int)
  | 0, _ => []
  | f+1, cs =>
    match scanEntry cs with
    | none => []
    | some (e, rest) => e :: scanHeader f rest

/-- All entries the header scan yields for a given content. -/
def scanHeaderFull (cs : List Char) : List (Int × Int × Int) :=
  scanHeader cs.length cs

/-! ## The in-memory offset index (`map[int]msgDef`) -/

/-- `msgDef` of filestore.go: where a message's bytes sit in the body file. -/
structure msgDef where
  offset : Int
  size : Int
deriving DecidableEq

/-- The `offsets` map, as an association list with unique keys. -/
abbrev OffsetMap := List (Int × msgDef)

def mapGet (m : OffsetMap) (k : Int) : Option msgDef :=
  match m with
  | [] => none
  | (k', v) :: rest => if k' = k then some v else mapGet rest k

def mapInsert (m : OffsetMap) (k : Int) (v : msgDef) : OffsetMap :=
  match m with
  | [] => [(k, v)]
  | (k', v') :: rest => if k' = k then (k, v) :: rest else (k', v') :: mapInsert rest k v

/-- `store.offsets[seqNum] = msgDef{...}` applied for every parsed header
entry, in scan order. -/
def applyEntries (m : OffsetMap) (es : List (Int × Int × Int)) : OffsetMap :=
  es.foldl (fun m e => mapInsert m e.1 ⟨e.2.1, e.2.2⟩) m

/-! ## The in-memory cache

Modelled from the spec: `memoryStore` (the SequenceCache of spec section 4.1)
is declared in memorystore.go, which is not among the repository files given;
per the spec it holds the creation time and the two next sequence numbers,
its getters and setters are pure reads and unconditional overwrites, the
increments add one, and `Reset` sets the creation time to now and both
counters to 1, with no I/O and no failure modes. -/

structure memoryStore where
  creationTime : Nat
  senderMsgSeqNum : Int
  targetMsgSeqNum : Int
deriving DecidableEq

/-- Modelled from the spec: `memoryStore.Reset` — creation time becomes now,
both counters return to 1. -/
def memoryStore.Reset (now : Nat) : memoryStore :=
  { creationTime := now, senderMsgSeqNum := 1, targetMsgSeqNum := 1 }

def memoryStore.NextSenderMsgSeqNum (c : memoryStore) : Int := c.senderMsgSeqNum

def memoryStore.NextTargetMsgSeqNum (c : memoryStore) : Int := c.targetMsgSeqNum

def memoryStore.SetNextSenderMsgSeqNum (c : memoryStore) (next : Int) : memoryStore :=
  { c with senderMsgSeqNum := next }

def memoryStore.SetNextTargetMsgSeqNum (c : memoryStore) (next : Int) : memoryStore :=
  { c with targetMsgSeqNum := next }

def memoryStore.IncrNextSenderMsgSeqNum (c : memoryStore) : memoryStore :=
  { c with senderMsgSeqNum := c.senderMsgSeqNum + 1 }

def memoryStore.IncrNextTargetMsgSeqNum (c : memoryStore) : memoryStore :=
  { c with targetMsgSeqNum := c.targetMsgSeqNum + 1 }

def memoryStore.CreationTime (c : memoryStore) : Nat := c.creationTime

/-! ## The on-disk state and the store -/

/-- The five per-session files (`<sessionID>.body/.header/.session/
.senderseqnums/.targetseqnums`); `none` models an absent file. -/
structure Disk where
  body : Option (List Nat)
  header : Option (List Char)
  session : Option (List Char)
  senderSeqNums : Option (List Char)
  targetSeqNums : Option (List Char)
deriving DecidableEq

def Disk.empty : Disk := ⟨none, none, none, none, none⟩

/-- `fileStore` of filestore.go. `isOpen` stands for the five `*os.File`
handles: `true` when they are open (operations through them act on the disk,
since every write is followed by `Sync`), `false` when they are nil after
`Close` (an operation through a nil handle fails with `os.ErrInvalid`). -/
structure fileStore where
  cache : memoryStore
  offsets : OffsetMap
  disk : Disk
  isOpen : Bool
deriving DecidableEq

def fileStore.bodyData (s : fileStore) : List Nat := s.disk.body.getD []

def fileStore.headerData (s : fileStore) : List Char := s.disk.header.getD []

def fileStore.NextSenderMsgSeqNum (s : fileStore) : Int := s.cache.NextSenderMsgSeqNum

def fileStore.NextTargetMsgSeqNum (s : fileStore) : Int := s.cache.NextTargetMsgSeqNum

def fileStore.CreationTime (s : fileStore) : Nat := s.cache.CreationTime

/-- Writing `w` at position 0 of a file holding `old` (seek to start, write,
sync): the bytes beyond the written width keep their old values. -/
def overwriteAt0 (old w : List Char) : List Char := w ++ old.drop w.length

/-- The content a `setSeqNum` write leaves in a counter file that held `old`. -/
def counterWrite (old : List Char) (n : Int) : List Char := overwriteAt0 old (fmt019 n)

/-- Which of the two counter files `setSeqNum` is given. -/
inductive CounterFile
  | sender
  | target
deriving DecidableEq

/-- `fileStore.setSeqNum`: rewind the counter file, write `%019d`, sync.
`osFail` is the outcome of those OS calls: when `true` the first of them
fails and the file is left as it was; a nil handle (closed store) fails the
rewind outright. Either failure is returned to the caller. -/
def fileStore.setSeqNum (s : fileStore) (which : CounterFile) (n : Int) (osFail : Bool) :
    fileStore × Option String :=
  if !s.isOpen then (s, some "unable to rewind file: invalid argument")
  else if osFail then (s, some "unable to write to file: i/o error")
  else
    match which with
    | CounterFile.sender =>
      let content := counterWrite (s.disk.senderSeqNums.getD []) n
      ({ s with disk := { s.disk with senderSeqNums := some content } }, none)
    | CounterFile.target =>
      let content := counterWrite (s.disk.targetSeqNums.getD []) n
      ({ s with disk := { s.disk with targetSeqNums := some content } }, none)

/-- `fileStore.SetNextSenderMsgSeqNum`: cache first, then the durable write. -/
def fileStore.SetNextSenderMsgSeqNum (s : fileStore) (next : Int) (osFail : Bool) :
    fileStore × Option String :=
  let s := { s with cache := s.cache.SetNextSenderMsgSeqNum next }
  s.setSeqNum CounterFile.sender next osFail

/-- `fileStore.SetNextTargetMsgSeqNum`: cache first, then the durable write. -/
def fileStore.SetNextTargetMsgSeqNum (s : fileStore) (next : Int) (osFail : Bool) :
    fileStore × Option String :=
  let s := { s with cache := s.cache.SetNextTargetMsgSeqNum next }
  s.setSeqNum CounterFile.target next osFail

/-- `fileStore.IncrNextSenderMsgSeqNum`: cache increment, then persist. -/
def fileStore.IncrNextSenderMsgSeqNum (s : fileStore) (osFail : Bool) :
    fileStore × Option String :=
  let s := { s with cache := s.cache.IncrNextSenderMsgSeqNum }
  s.setSeqNum CounterFile.sender s.cache.NextSenderMsgSeqNum osFail

/-- `fileStore.IncrNextTargetMsgSeqNum`: cache increment, then persist. -/
def fileStore.IncrNextTargetMsgSeqNum (s : fileStore) (osFail : Bool) :
    fileStore × Option String :=
  let s := { s with cache := s.cache.IncrNextTargetMsgSeqNum }
  s.setSeqNum CounterFile.target s.cache.NextTargetMsgSeqNum osFail

/-- `fileStore.setSession`: rewind the session file, write the marshalled
creation time, sync. `osFail` is the outcome of those OS calls: when `true`
the first of them fails and the file is left as it was; a nil handle
(closed store) fails the rewind outright. Either failure is returned. -/
def fileStore.setSession (s : fileStore) (osFail : Bool) : fileStore × Option String :=
  if !s.isOpen then (s, some "unable to rewind file: invalid argument")
  else if osFail then (s, some "unable to write to file: i/o error")
  else
    let content := overwriteAt0 (s.disk.session.getD []) (marshalTime s.cache.creationTime)
    ({ s with disk := { s.disk with session := some content } }, none)

/-- `fileStore.populateCache`: merge the parsed header entries into `offsets`
(the map is NOT cleared first), adopt a parsable session time and any parsable
counter values into the cache; absent or unparsable files are skipped. The
returned flag says whether a creation time was adopted; the error is the
literal `nil` of the source. -/
def fileStore.populateCache (s : fileStore) : fileStore × Bool × Option String :=
  let s :=
    match s.disk.header with
    | some content => { s with offsets := applyEntries s.offsets (scanHeaderFull content) }
    | none => s
  let sp :=
    match s.disk.session with
    | some cs =>
      match unmarshalTime cs with
      | some t => ({ s with cache := { s.cache with creationTime := t } }, true)
      | none => (s, false)
    | none => (s, false)
  let s := sp.1
  let s :=
    match s.disk.senderSeqNums with
    | some cs =>
      match atoi cs with
      | some v => { s with cache := s.cache.SetNextSenderMsgSeqNum v }
      | none => s
    | none => s
  let s :=
    match s.disk.targetSeqNums with
    | some cs =>
      match atoi cs with
      | some v => { s with cache := s.cache.SetNextTargetMsgSeqNum v }
      | none => s
    | none => s
  (s, sp.2, none)

/-- `fileStore.Close`: release the five handles (nil handles are tolerated,
so no error arises) and null them out; the disk is untouched. -/
def fileStore.Close (s : fileStore) : fileStore × Option String :=
  ({ s with isOpen := false }, none)

/-- `openOrCreateFile` for each of the five files: an absent file is created
empty, then all handles are open. -/
def fileStore.openFiles (s : fileStore) : fileStore :=
  { s with
    isOpen := true,
    disk :=
      { body := some (s.disk.body.getD []),
        header := some (s.disk.header.getD []),
        session := some (s.disk.session.getD []),
        senderSeqNums := some (s.disk.senderSeqNums.getD []),
        targetSeqNums := some (s.disk.targetSeqNums.getD []) } }

/-- `fileStore.Refresh`: reset the cache to `now`, close, populate from disk,
reopen/create the files, record the creation time if none was found (a
failing `setSession` aborts with its error, filestore.go lines 162-166), and
finally re-persist both counters unconditionally — the errors of those two
`SetNext*MsgSeqNum` calls are discarded (filestore.go lines 168-169).
`sessFail` is the OS outcome of the session-time write,
`senderFail`/`targetFail` those of the two counter writes. -/
def fileStore.Refresh (s : fileStore) (now : Nat) (sessFail senderFail targetFail : Bool) :
    fileStore × Option String :=
  let s1 := { s with cache := memoryStore.Reset now }
  let s2 := (s1.Close).1
  let pc := s2.populateCache
  let s3 := pc.1
  let populated := pc.2.1
  let s4 := s3.openFiles
  match (if populated then (s4, (none : Option String)) else s4.setSession sessFail) with
  | (s5, some e) => (s5, some e)
  | (s5, none) =>
    let s6 := (s5.SetNextSenderMsgSeqNum s5.NextSenderMsgSeqNum senderFail).1
    let s7 := (s6.SetNextTargetMsgSeqNum s6.NextTargetMsgSeqNum targetFail).1
    (s7, none)

/-- `fileStore.Reset`: reset the cache, close, delete the five files (absence
tolerated), then `Refresh`. `now1` is the clock at the cache reset, `now2`
at the reset inside the refresh. -/
def fileStore.Reset (s : fileStore) (now1 now2 : Nat) (sessFail senderFail targetFail : Bool) :
    fileStore × Option String :=
  let s1 := { s with cache := memoryStore.Reset now1 }
  let s2 := (s1.Close).1
  let s3 := { s2 with disk := Disk.empty }
  s3.Refresh now2 sessFail senderFail targetFail

/-- `newFileStore`: a fresh store (zero cache, empty offsets map) bound to the
directory contents `d`, then `Refresh`. -/
def newFileStore (d : Disk) (now : Nat) (sessFail senderFail targetFail : Bool) :
    fileStore × Option String :=
  let s : fileStore := { cache := ⟨0, 0, 0⟩, offsets := [], disk := d, isOpen := false }
  s.Refresh now sessFail senderFail targetFail

/-- `fileStore.SaveMessage`: seek the body file's end for the offset, seek
the header file's end, append the header line, record the index entry,
append the message bytes, sync the body file, sync the header file.
`failStep` is the first of the six OS calls (in that order: body seek,
header seek, header write, body write, body sync, header sync) to fail, if
any; a failing call leaves its file unchanged and the error is returned at
once, so a failure at the body write or later leaves the header line and the
index entry already in place, as in the source. On a closed store the very
first seek fails through the nil handle. -/
def fileStore.SaveMessage (s : fileStore) (seqNum : Int) (msg : List Nat)
    (failStep : Option (Fin 6)) : fileStore × Option String :=
  if !s.isOpen then (s, some "unable to seek to end of file: invalid argument")
  else if failStep = some 0 then (s, some "unable to seek to end of file: i/o error")
  else if failStep = some 1 then (s, some "unable to seek to end of file: i/o error")
  else
    let offset : Int := s.bodyData.length
    if failStep = some 2 then (s, some "unable to write to file: i/o error")
    else
      let hcontent := s.headerData ++ headerLine seqNum offset (msg.length : Int)
      let s1 := { s with disk := { s.disk with header := some hcontent } }
      let s2 := { s1 with offsets := mapInsert s1.offsets seqNum ⟨offset, (msg.length : Int)⟩ }
      if failStep = some 3 then (s2, some "unable to write to file: i/o error")
      else
        let s3 := { s2 with disk := { s2.disk with body := some (s2.bodyData ++ msg) } }
        if failStep = some 4 then (s3, some "unable to flush file: i/o error")
        else if failStep = some 5 then (s3, some "unable to flush file: i/o error")
        else (s3, none)

/-- `os.File.ReadAt` of `size` bytes at `offset`: succeeds exactly when the
whole requested range lies inside the file (a negative size would make the
Go `make([]byte, size)` panic; it is treated here as an unsatisfiable read). -/
def readAt (body : List Nat) (offset size : Int) : Option (List Nat) :=
  if 0 ≤ offset ∧ 0 ≤ size ∧ offset.toNat + size.toNat ≤ body.length then
    some ((body.drop offset.toNat).take size.toNat)
  else none

/-- `fileStore.getMessage`: index lookup, then a positional read of the body
file. `found` reports the index lookup; a failed read (truncated body, or a
closed store's nil handle) is an error alongside `found = true`. -/
def fileStore.getMessage (s : fileStore) (seqNum : Int) : List Nat × Bool × Option String :=
  match mapGet s.offsets seqNum with
  | none => ([], false, none)
  | some d =>
    if s.isOpen then
      match readAt s.bodyData d.offset d.size with
      | some m => (m, true, none)
      | none => ([], true, some "unable to read from file: i/o error")
    else ([], true, some "unable to read from file: invalid argument")

/-- The loop of `fileStore.GetMessages`, counting `fuel` seqnums up from `k`:
on the first error everything gathered so far is dropped and `(nil, err)` is
returned; otherwise found messages are appended in order. -/
def fileStore.getMessagesLoop (s : fileStore) :
    Int → Nat → List (List Nat) → List (List Nat) × Option String
  | _, 0, acc => (acc, none)
  | k, f+1, acc =>
    match (s.getMessage k).2.2 with
    | some e => ([], some e)
    | none =>
      if (s.getMessage k).2.1 then s.getMessagesLoop (k+1) f (acc ++ [(s.getMessage k).1])
      else s.getMessagesLoop (k+1) f acc

/-- `fileStore.GetMessages beginSeqNum endSeqNum`. -/
def fileStore.GetMessages (s : fileStore) (beginSeqNum endSeqNum : Int) :
    List (List Nat) × Option String :=
  s.getMessagesLoop beginSeqNum (endSeqNum + 1 - beginSeqNum).toNat []

/-- The inclusive integer range `[k, k+f)` in increasing order. -/
def intRangeF : Int → Nat → List Int
  | _, 0 => []
  | k, f+1 => k :: intRangeF (k+1) f

/-- The inclusive integer range `[b, e]` in increasing order. -/
def intRange (b e : Int) : List Int := intRangeF b (e + 1 - b).toNat

/-- The message `GetMessages` would gather for one seqnum: present exactly
when the seqnum is indexed and its read succeeds. -/
def fileStore.readOk (s : fileStore) (k : Int) : Option (List Nat) :=
  if (s.getMessage k).2.1 = true ∧ (s.getMessage k).2.2 = none then some (s.getMessage k).1
  else none

/-! ## Spec-side vocabulary for the header-scan and counter-file claims -/

/-- A well-formed header content: the encodings of `es`, one line each. -/
def encodeEntries : List (Int × Int × Int) → List Char
  | [] => []
  | e :: es => headerLine e.1 e.2.1 e.2.2 ++ encodeEntries es

/-- `i` fits a 64-bit int (so Go renders and re-parses it faithfully). -/
def intFits (i : Int) : Prop := -(2^63) ≤ i ∧ i < 2^63

instance (i : Int) : Decidable (intFits i) := by unfold intFits; infer_instance

/-- All three fields of a header entry fit a 64-bit int. -/
def entryFits (e : Int × Int × Int) : Prop := intFits e.1 ∧ intFits e.2.1 ∧ intFits e.2.2

instance (e : Int × Int × Int) : Decidable (entryFits e) := by unfold entryFits; infer_instance

/-- The next `Fscanf` application fails on `cs`: the scan stops here (and
`populateCache` raises no error). -/
def scanStops (cs : List Char) : Bool := (scanEntry cs).isNone

/-- The last header entry for key `k`, as recorded by a forward scan
(last-write-wins). -/
def lastEntry (es : List (Int × Int × Int)) (k : Int) : Option msgDef :=
  match es with
  | [] => none
  | e :: rest =>
    match lastEntry rest k with
    | some d => some d
    | none => if e.1 = k then some ⟨e.2.1, e.2.2⟩ else none

/-! ## Concrete stores used as witnesses and counterexamples -/

/-- A store freshly constructed over an empty directory at time 0. -/
def demoFresh : fileStore := (newFileStore Disk.empty 0 false false false).1

/-- `demoFresh` after `SaveMessage 1 [65]`. -/
def demoSaved : fileStore := (demoFresh.SaveMessage 1 [65] none).1

/-- `demoSaved` after a second save at seqnum 3. -/
def demoGap : fileStore := (demoSaved.SaveMessage 3 [67] none).1

/-- `demoSaved` after `Reset` (clock ticks 1 and 2). -/
def demoReset : fileStore := (demoSaved.Reset 1 2 false false false).1

/-- An open store whose counter files were just created empty (the state in
which `Refresh` performs its first-ever counter persist). -/
def counterDemo : fileStore :=
  { cache := ⟨0, 1, 1⟩, offsets := [],
    disk := { body := some [], header := some [], session := some ['0'],
              senderSeqNums := some [], targetSeqNums := some [] },
    isOpen := true }

/-- A closed store whose header file holds one complete line followed by the
crash-truncated remains of a second: the intended append of the line
`"1,0,23\n"` was cut after its sixth character, leaving `"1,0,2"` with no
newline. -/
def headerTruncDemo : fileStore :=
  { cache := ⟨0, 1, 1⟩, offsets := [],
    disk := { body := some [], header := some (encodeEntries [(2, 5, 7)] ++ ['1', ',', '0', ',', '2']),
              session := none, senderSeqNums := none, targetSeqNums := none },
    isOpen := false }

/-- A closed store holding a header file with two entries for seqnum 1
followed by a malformed line. -/
def headerDemo : fileStore :=
  { cache := ⟨0, 1, 1⟩, offsets := [(5, ⟨9, 9⟩)],
    disk := { body := some [], header := some (encodeEntries [(1, 0, 2), (1, 2, 3)] ++ ['x', '\n']),
              session := none, senderSeqNums := none, targetSeqNums := none },
    isOpen := false }

/-- An open store whose body file is shorter than its index entry for
seqnum 2 claims (a body truncated relative to the index), so that read fails. -/
def badReadStore : fileStore :=
  { cache := ⟨0, 1, 1⟩, offsets := [(1, ⟨0, 1⟩), (2, ⟨0, 5⟩)],
    disk := { body := some [65], header := some [], session := some ['0'],
              senderSeqNums := some [], targetSeqNums := some [] },
    isOpen := true }

/-! ## Lemmas: decimal rendering and parsing round-trip -/

lemma digitChar_spec {d : Nat} (h : d < 10) :
    (digitChar d).isDigit = true ∧ charVal (digitChar d) = d := by
  interval_cases d <;> exact ⟨by decide, by decide⟩

lemma isDigit_ne_dash {c : Char} (h : c.isDigit = true) : ¬ c = '-' := by
  intro he
  subst he
  exact absurd h (by decide)

lemma isDigit_ne_plus {c : Char} (h : c.isDigit = true) : ¬ c = '+' := by
  intro he
  subst he
  exact absurd h (by decide)

lemma natToCharsAux_acc (f : Nat) : ∀ (n : Nat) (acc : List Char),
    natToCharsAux f n acc = natToCharsAux f n [] ++ acc := by
  induction f with
  | zero => intro n acc; simp [natToCharsAux]
  | succ f ih =>
    intro n acc
    by_cases h : n < 10
    · simp [natToCharsAux, h]
    · simp only [natToCharsAux, if_neg h]
      rw [ih (n / 10) (digitChar (n % 10) :: acc), ih (n / 10) [digitChar (n % 10)]]
      simp

lemma parseDigitsAux_append (cs : List Char) : ∀ (ds : List Char) (a : Nat),
    parseDigitsAux (cs ++ ds) a = (parseDigitsAux cs a).bind fun v => parseDigitsAux ds v := by
  induction cs with
  | nil => intro ds a; simp [parseDigitsAux]
  | cons c cs ih =>
    intro ds a
    by_cases h : c.isDigit
    · simp [parseDigitsAux, h, ih]
    · simp [parseDigitsAux, h]

lemma parseDigitsAux_natToCharsAux (f : Nat) : ∀ (n a : Nat), n < 10 ^ f →
    parseDigitsAux (natToCharsAux f n []) a =
      some (a * 10 ^ (natToCharsAux f n []).length + n) := by
  induction f with
  | zero =>
    intro n a h
    interval_cases n
    simp [natToCharsAux, parseDigitsAux]
  | succ f ih =>
    intro n a h
    by_cases h10 : n < 10
    · have hd := digitChar_spec h10
      simp [natToCharsAux, h10, parseDigitsAux, hd.1, hd.2]
    · have hf : n / 10 < 10 ^ f := by
        rw [Nat.div_lt_iff_lt_mul (by norm_num)]
        calc n < 10 ^ (f + 1) := h
          _ = 10 ^ f * 10 := by ring
      have hd := digitChar_spec (Nat.mod_lt n (by norm_num) : n % 10 < 10)
      simp only [natToCharsAux, if_neg h10]
      rw [natToCharsAux_acc]
      rw [parseDigitsAux_append]
      rw [ih (n / 10) a hf]
      simp only [Option.some_bind, parseDigitsAux, hd.1, if_pos, hd.2, List.length_append,
        List.length_singleton]
      congr 1
      rw [pow_succ, ← mul_assoc]
      generalize a * 10 ^ (natToCharsAux f (n / 10) []).length = X
      omega

lemma natToCharsAux_fuel (f : Nat) : ∀ (g n : Nat) (acc : List Char),
    0 < f → 0 < g → n < 10 ^ f → n < 10 ^ g →
    natToCharsAux f n acc = natToCharsAux g n acc := by
  induction f with
  | zero => intro g n acc h; omega
  | succ f ih =>
    intro g n acc _ hg hfn hgn
    cases g with
    | zero => omega
    | succ g =>
      by_cases h10 : n < 10
      · simp [natToCharsAux, h10]
      · have hf1 : 0 < f := by
          by_contra hc
          have : f = 0 := by omega
          subst this
          simp at hfn
          omega
        have hg1 : 0 < g := by
          by_contra hc
          have : g = 0 := by omega
          subst this
          simp at hgn
          omega
        have hfn' : n / 10 < 10 ^ f := by
          rw [Nat.div_lt_iff_lt_mul (by norm_num)]
          calc n < 10 ^ (f + 1) := hfn
            _ = 10 ^ f * 10 := by ring
        have hgn' : n / 10 < 10 ^ g := by
          rw [Nat.div_lt_iff_lt_mul (by norm_num)]
          calc n < 10 ^ (g + 1) := hgn
            _ = 10 ^ g * 10 := by ring
        simp only [natToCharsAux, if_neg h10]
        exact ih g (n / 10) _ hf1 hg1 hfn' hgn'

lemma natToCharsAux_length (f : Nat) : ∀ (n : Nat), n < 10 ^ f →
    (natToCharsAux f n []).length ≤ f := by
  induction f with
  | zero => intro n h; interval_cases n; simp [natToCharsAux]
  | succ f ih =>
    intro n h
    by_cases h10 : n < 10
    · simp only [natToCharsAux, if_pos h10, List.length_singleton]
      omega
    · have hf : n / 10 < 10 ^ f := by
        rw [Nat.div_lt_iff_lt_mul (by norm_num)]
        calc n < 10 ^ (f + 1) := h
          _ = 10 ^ f * 10 := by ring
      simp only [natToCharsAux, if_neg h10]
      rw [natToCharsAux_acc]
      rw [List.length_append]
      have := ih (n / 10) hf
      simp only [List.length_singleton]
      omega

lemma natToCharsAux_nil (f : Nat) : ∀ (n : Nat) (acc : List Char),
    natToCharsAux f n acc = [] → f = 0 ∧ acc = [] := by
  induction f with
  | zero =>
    intro n acc h
    exact ⟨rfl, h⟩
  | succ f ih =>
    intro n acc h
    by_cases h10 : n < 10
    · simp [natToCharsAux, h10] at h
    · simp only [natToCharsAux, if_neg h10] at h
      obtain ⟨_, h2⟩ := ih _ _ h
      simp at h2

lemma natToChars_ne_nil (n : Nat) : natToChars n ≠ [] := by
  intro h
  obtain ⟨h1, _⟩ := natToCharsAux_nil (n + 1) n [] h
  omega

lemma natToCharsAux_digits (f : Nat) : ∀ (n : Nat) (acc : List Char) (c : Char),
    c ∈ natToCharsAux f n acc → c ∈ acc ∨ c.isDigit = true := by
  induction f with
  | zero => intro n acc c h; exact Or.inl h
  | succ f ih =>
    intro n acc c h
    by_cases h10 : n < 10
    · simp only [natToCharsAux, if_pos h10] at h
      rcases List.mem_cons.mp h with h | h
      · subst h
        exact Or.inr (digitChar_spec h10).1
      · exact Or.inl h
    · simp only [natToCharsAux, if_neg h10] at h
      rcases ih _ _ _ h with h | h
      · rcases List.mem_cons.mp h with h | h
        · subst h
          exact Or.inr (digitChar_spec (Nat.mod_lt n (by norm_num) : n % 10 < 10)).1
        · exact Or.inl h
      · exact Or.inr h

lemma natToChars_digits {n : Nat} {c : Char} (h : c ∈ natToChars n) : c.isDigit = true := by
  rcases natToCharsAux_digits (n + 1) n [] c h with h | h
  · simp at h
  · exact h

lemma parseDigitsAux_natToChars (n : Nat) : parseDigitsAux (natToChars n) 0 = some n := by
  have h1 : n < 10 ^ (n + 1) :=
    lt_of_lt_of_le (Nat.lt_pow_self (by norm_num) n)
      (Nat.pow_le_pow_right (by norm_num) (by omega))
  have := parseDigitsAux_natToCharsAux (n + 1) n 0 h1
  unfold natToChars
  rw [this]
  simp

lemma parseDigits_natToChars (n : Nat) : parseDigits (natToChars n) = some n := by
  unfold parseDigits
  rw [if_neg (natToChars_ne_nil n)]
  exact parseDigitsAux_natToChars n

lemma parseDigitsAux_zeros (k : Nat) : parseDigitsAux (List.replicate k '0') 0 = some 0 := by
  induction k with
  | zero => simp [parseDigitsAux]
  | succ k ih =>
    rw [List.replicate_succ]
    have h0 : ('0').isDigit = true := by decide
    simp [parseDigitsAux, h0, charVal]
    exact ih

/-! ## Lemmas: atoi on store-written content -/

lemma atoi_of_digits (cs : List Char) (m : Nat) (hne : cs ≠ [])
    (hdig : ∀ c ∈ cs, c.isDigit = true)
    (hval : parseDigitsAux cs 0 = some m) (hm : m ≤ 2 ^ 63 - 1) :
    atoi cs = some (m : Int) := by
  match cs, hne with
  | c :: rest, _ =>
    have hc : c.isDigit = true := hdig c (List.mem_cons_self c rest)
    have h1 : ¬ c = '-' := isDigit_ne_dash hc
    have h2 : ¬ c = '+' := isDigit_ne_plus hc
    have hpd : parseDigits (c :: rest) = some m := by
      unfold parseDigits
      rw [if_neg (by simp)]
      exact hval
    simp only [atoi, if_neg h1, if_neg h2, hpd, Option.some_bind, if_pos hm]

lemma atoi_natToChars (m : Nat) (hm : m ≤ 2 ^ 63 - 1) :
    atoi (natToChars m) = some (m : Int) :=
  atoi_of_digits _ m (natToChars_ne_nil m) (fun _ hc => natToChars_digits hc)
    (parseDigitsAux_natToChars m) hm

lemma atoi_fmtInt (i : Int) (hlo : -(2 ^ 63) ≤ i) (hhi : i < 2 ^ 63) :
    atoi (fmtInt i) = some i := by
  by_cases hneg : i < 0
  · have habs : (i.natAbs : Int) = -i := Int.ofNat_natAbs_of_nonpos (le_of_lt hneg)
    have hb : i.natAbs ≤ 2 ^ 63 := by omega
    simp only [fmtInt, if_pos hneg]
    have hpd : parseDigits (natToChars i.natAbs) = some i.natAbs := parseDigits_natToChars _
    simp only [atoi, if_pos rfl, hpd, Option.some_bind, if_pos hb]
    rw [habs, neg_neg]
    simp
  · have h0 : 0 ≤ i := by omega
    have hto : ((i.toNat : Int)) = i := Int.toNat_of_nonneg h0
    have hb : i.toNat ≤ 2 ^ 63 - 1 := by omega
    simp only [fmtInt, if_neg hneg]
    rw [atoi_natToChars i.toNat hb, hto]

lemma zeroPad_digits {w : Nat} {m : Nat} {c : Char} (h : c ∈ zeroPad w (natToChars m)) :
    c.isDigit = true := by
  rcases List.mem_append.mp h with h | h
  · have := List.eq_of_mem_replicate h
    subst this
    decide
  · exact natToChars_digits h

lemma parseDigitsAux_zeroPad (w m : Nat) :
    parseDigitsAux (zeroPad w (natToChars m)) 0 = some m := by
  unfold zeroPad
  rw [parseDigitsAux_append]
  rw [parseDigitsAux_zeros]
  simp only [Option.some_bind]
  exact parseDigitsAux_natToChars m

lemma zeroPad_ne_nil (m : Nat) : zeroPad 19 (natToChars m) ≠ [] := by
  unfold zeroPad
  intro h
  rcases List.append_eq_nil.mp h with ⟨_, h2⟩
  exact natToChars_ne_nil m h2

lemma atoi_zeroPad19 (m : Nat) (hm : m ≤ 2 ^ 63 - 1) :
    atoi (zeroPad 19 (natToChars m)) = some (m : Int) :=
  atoi_of_digits _ m (zeroPad_ne_nil m) (fun _ hc => zeroPad_digits hc)
    (parseDigitsAux_zeroPad 19 m) hm

lemma zeroPad19_length (m : Nat) (hm : m < 10 ^ 19) :
    (zeroPad 19 (natToChars m)).length = 19 := by
  have hlen : (natToChars m).length ≤ 19 := by
    have heq : natToChars m = natToCharsAux 19 m [] := by
      unfold natToChars
      exact natToCharsAux_fuel (m + 1) 19 m [] (by omega) (by norm_num)
        (lt_of_lt_of_le (Nat.lt_pow_self (by norm_num) m)
          (Nat.pow_le_pow_right (by norm_num) (by omega))) hm
    rw [heq]
    exact natToCharsAux_length 19 m hm
  unfold zeroPad
  rw [List.length_append, List.length_replicate]
  omega

lemma fmt019_nonneg (i : Int) (h0 : 0 ≤ i) : fmt019 i = zeroPad 19 (natToChars i.toNat) := by
  unfold fmt019
  rw [if_neg (by omega)]

/-! ## Lemmas: the counter-file write -/

lemma counterWrite_spec_aux (old : List Char) (i : Int)
    (hlen : old.length ≤ 19) (h0 : 0 ≤ i) (hr : i < 2 ^ 63) :
    (counterWrite old i).length = 19 ∧ atoi (counterWrite old i) = some i := by
  have h19 : i.toNat < 10 ^ 19 := by
    have : (2 : Nat) ^ 63 < 10 ^ 19 := by norm_num
    omega
  have hw : fmt019 i = zeroPad 19 (natToChars i.toNat) := fmt019_nonneg i h0
  have hwl : (fmt019 i).length = 19 := by
    rw [hw]
    exact zeroPad19_length i.toNat h19
  have hdrop : old.drop (fmt019 i).length = [] := by
    rw [hwl]
    exact List.drop_eq_nil_of_le hlen
  have hcw : counterWrite old i = fmt019 i := by
    unfold counterWrite overwriteAt0
    rw [hdrop, List.append_nil]
  constructor
  · rw [hcw, hwl]
  · rw [hcw, hw]
    have := atoi_zeroPad19 i.toNat (by omega)
    rw [this]
    congr 1
    omega

/-! ## Lemmas: header lines and the scan -/

lemma isDigit_not_blank {c : Char} (h : c.isDigit = true) : isBlank c = false := by
  by_cases h1 : c = ' '
  · subst h1
    exact absurd h (by decide)
  · by_cases h2 : c = '\t'
    · subst h2
      exact absurd h (by decide)
    · simp [isBlank, h1, h2]

lemma skipBlanks_cons_of_not (c : Char) (cs : List Char) (h : isBlank c = false) :
    skipBlanks (c :: cs) = c :: cs := by
  simp [skipBlanks, h]

lemma takeDigits_digits_append (ds : List Char) (r : List Char)
    (hds : ∀ c ∈ ds, c.isDigit = true) (hr : headNotDigit r = true) :
    takeDigits (ds ++ r) = (ds, r) := by
  induction ds with
  | nil =>
    cases r with
    | nil => rfl
    | cons c cs =>
      have hc : c.isDigit = false := by
        simpa [headNotDigit] using hr
      simp [takeDigits, hc]
  | cons d ds ih =>
    have hd : d.isDigit = true := hds d (List.mem_cons_self d ds)
    have ih2 := ih (fun c hc => hds c (List.mem_cons_of_mem d hc))
    simp [takeDigits, hd, ih2]

lemma scanIntAfter_digits (m : Nat) (r : List Char) (hm : m ≤ 2 ^ 63 - 1)
    (hr : headNotDigit r = true) :
    scanIntAfter (natToChars m ++ r) = some ((m : Int), r) := by
  rcases hcs : natToChars m with _ | ⟨c, cs⟩
  · exact absurd hcs (natToChars_ne_nil m)
  · have hcd : c.isDigit = true := natToChars_digits (by rw [hcs]; exact List.mem_cons_self c cs)
    have h1 : ¬ c = '-' := isDigit_ne_dash hcd
    have h2 : ¬ c = '+' := isDigit_ne_plus hcd
    have htd : takeDigits (c :: (cs ++ r)) = (c :: cs, r) := by
      rw [← List.cons_append]
      apply takeDigits_digits_append
      · intro x hx
        exact natToChars_digits (by rw [hcs]; exact hx)
      · exact hr
    have hpd : parseDigits (c :: cs) = some m := by
      rw [← hcs]
      exact parseDigits_natToChars m
    simp only [List.cons_append, scanIntAfter, if_neg h1, if_neg h2, htd, hpd, if_pos hm]

lemma scanInt_fmtInt (i : Int) (r : List Char) (hfit : intFits i)
    (hr : headNotDigit r = true) :
    scanInt (fmtInt i ++ r) = some (i, r) := by
  unfold scanInt
  by_cases hneg : i < 0
  · have habs : (i.natAbs : Int) = -i := Int.ofNat_natAbs_of_nonpos (le_of_lt hneg)
    have hb : i.natAbs ≤ 2 ^ 63 := by
      have := hfit.1
      omega
    have htd : takeDigits (natToChars i.natAbs ++ r) = (natToChars i.natAbs, r) :=
      takeDigits_digits_append _ _ (fun c hc => natToChars_digits hc) hr
    simp only [fmtInt, if_pos hneg, List.cons_append]
    rw [skipBlanks_cons_of_not _ _ (by decide)]
    rw [← List.cons_append]  -- restore shape for the takeDigits rewrite
    simp only [scanIntAfter, if_pos rfl, List.cons_append, htd,
      parseDigits_natToChars, if_pos hb]
    rw [habs, neg_neg]
    simp
  · have h0 : 0 ≤ i := by omega
    have hto : ((i.toNat : Int)) = i := Int.toNat_of_nonneg h0
    have hb : i.toNat ≤ 2 ^ 63 - 1 := by
      have := hfit.2
      omega
    have hsb : skipBlanks (natToChars i.toNat ++ r) = natToChars i.toNat ++ r := by
      rcases hcs : natToChars i.toNat with _ | ⟨c, cs⟩
      · exact absurd hcs (natToChars_ne_nil _)
      · have hcd : c.isDigit = true :=
          natToChars_digits (by rw [hcs]; exact List.mem_cons_self c cs)
        simp only [List.cons_append]
        exact skipBlanks_cons_of_not _ _ (isDigit_not_blank hcd)
    simp only [fmtInt, if_neg hneg]
    rw [hsb, scanIntAfter_digits i.toNat r hb hr, hto]

lemma scanEntry_line (a b c : Int) (rest : List Char)
    (ha : intFits a) (hb : intFits b) (hc : intFits c) :
    scanEntry (headerLine a b c ++ rest) = some ((a, b, c), rest) := by
  have hshape : headerLine a b c ++ rest =
      fmtInt a ++ ',' :: (fmtInt b ++ ',' :: (fmtInt c ++ '\n' :: rest)) := by
    simp [headerLine, lineBody, List.append_assoc]
  have h1 : scanInt (fmtInt a ++ ',' :: (fmtInt b ++ ',' :: (fmtInt c ++ '\n' :: rest))) =
      some (a, ',' :: (fmtInt b ++ ',' :: (fmtInt c ++ '\n' :: rest))) :=
    scanInt_fmtInt a _ ha rfl
  have h2 : scanInt (fmtInt b ++ ',' :: (fmtInt c ++ '\n' :: rest)) =
      some (b, ',' :: (fmtInt c ++ '\n' :: rest)) :=
    scanInt_fmtInt b _ hb rfl
  have h3 : scanInt (fmtInt c ++ '\n' :: rest) = some (c, '\n' :: rest) :=
    scanInt_fmtInt c _ hc rfl
  rw [hshape]
  simp [scanEntry, h1, h2, h3, scanChar, scanNewlineOrEnd, skipBlanks, isBlank]

lemma headerLine_length (a b c : Int) :
    (headerLine a b c).length = (lineBody a b c).length + 1 := by
  simp [headerLine]

lemma scanHeader_stops (tail : List Char) (f : Nat) (hbad : scanStops tail = true) :
    scanHeader f tail = [] := by
  unfold scanStops at hbad
  have hse : scanEntry tail = none := Option.isNone_iff_eq_none.mp hbad
  cases f with
  | zero => rfl
  | succ f => simp [scanHeader, hse]

lemma scanHeader_encode (es : List (Int × Int × Int)) : ∀ (tail : List Char) (f : Nat),
    (∀ e ∈ es, entryFits e) → scanStops tail = true →
    (encodeEntries es).length ≤ f →
    scanHeader f (encodeEntries es ++ tail) = es := by
  induction es with
  | nil =>
    intro tail f _ hbad _
    simp only [encodeEntries, List.nil_append]
    exact scanHeader_stops tail f hbad
  | cons e es ih =>
    intro tail f hfits hbad hf
    have hlen1 : 1 ≤ (headerLine e.1 e.2.1 e.2.2).length := by
      rw [headerLine_length]
      omega
    have hlen : (encodeEntries (e :: es)).length =
        (headerLine e.1 e.2.1 e.2.2).length + (encodeEntries es).length := by
      simp [encodeEntries]
    cases f with
    | zero => omega
    | succ f =>
      have hfit := hfits e (List.mem_cons_self e es)
      have hrest : scanHeader f (encodeEntries es ++ tail) = es := by
        apply ih tail f (fun x hx => hfits x (List.mem_cons_of_mem e hx)) hbad
        omega
      have hshape : encodeEntries (e :: es) ++ tail =
          headerLine e.1 e.2.1 e.2.2 ++ (encodeEntries es ++ tail) := by
        simp [encodeEntries, List.append_assoc]
      rw [hshape]
      simp only [scanHeader, scanEntry_line e.1 e.2.1 e.2.2 _ hfit.1 hfit.2.1 hfit.2.2]
      rw [hrest]

lemma scanHeaderFull_encode (es : List (Int × Int × Int)) (tail : List Char)
    (hfits : ∀ e ∈ es, entryFits e) (hbad : scanStops tail = true) :
    scanHeaderFull (encodeEntries es ++ tail) = es := by
  unfold scanHeaderFull
  exact scanHeader_encode es tail _ hfits hbad
    (by rw [List.length_append]; omega)

/-! ## Lemmas: the offsets map -/

lemma mapGet_insert_self (m : OffsetMap) (k : Int) (v : msgDef) :
    mapGet (mapInsert m k v) k = some v := by
  induction m with
  | nil => simp [mapInsert, mapGet]
  | cons p rest ih =>
    obtain ⟨k', v'⟩ := p
    by_cases h : k' = k
    · simp [mapInsert, mapGet, h]
    · simp [mapInsert, mapGet, h, ih]

lemma mapGet_insert_ne (m : OffsetMap) (k j : Int) (v : msgDef) (h : ¬ k = j) :
    mapGet (mapInsert m k v) j = mapGet m j := by
  induction m with
  | nil => simp [mapInsert, mapGet, h]
  | cons p rest ih =>
    obtain ⟨k', v'⟩ := p
    by_cases hk : k' = k
    · subst hk
      simp [mapInsert, mapGet, h]
    · have hjk : ¬ j = k := fun he => h he.symm
      by_cases hj : k' = j
      · simp [mapInsert, mapGet, hk, hj, hjk]
      · simp [mapInsert, mapGet, hk, hj, ih]

lemma applyEntries_get (es : List (Int × Int × Int)) : ∀ (m : OffsetMap) (k : Int),
    mapGet (applyEntries m es) k =
      (match lastEntry es k with
       | some d => some d
       | none => mapGet m k) := by
  induction es with
  | nil => intro m k; simp [applyEntries, lastEntry]
  | cons e rest ih =>
    intro m k
    have hstep : applyEntries m (e :: rest) = applyEntries (mapInsert m e.1 ⟨e.2.1, e.2.2⟩) rest := by
      simp [applyEntries]
    rw [hstep, ih]
    rcases hl : lastEntry rest k with _ | d
    · simp only [lastEntry, hl]
      by_cases hk : e.1 = k
      · subst hk
        simp [mapGet_insert_self]
      · simp [hk, mapGet_insert_ne m e.1 k _ hk]
    · simp only [lastEntry, hl]

/-! ## Lemmas: the GetMessages loop -/

lemma mem_intRangeF (f : Nat) : ∀ (k j : Int), j ∈ intRangeF k f ↔ k ≤ j ∧ j < k + f := by
  induction f with
  | zero =>
    intro k j
    simp [intRangeF]
  | succ f ih =>
    intro k j
    simp only [intRangeF, List.mem_cons, ih (k + 1) j]
    constructor
    · rintro (h | ⟨h1, h2⟩)
      · subst h
        push_cast
        omega
      · push_cast at h2 ⊢
        omega
    · intro ⟨h1, h2⟩
      by_cases hk : j = k
      · exact Or.inl hk
      · right
        push_cast at h2 ⊢
        omega

lemma getMessagesLoop_ok (s : fileStore) (f : Nat) : ∀ (k : Int) (acc : List (List Nat)),
    (∀ j ∈ intRangeF k f, (s.getMessage j).2.2 = none) →
    s.getMessagesLoop k f acc = (acc ++ (intRangeF k f).filterMap s.readOk, none) := by
  induction f with
  | zero => intro k acc _; simp [fileStore.getMessagesLoop, intRangeF]
  | succ f ih =>
    intro k acc h
    have hk : (s.getMessage k).2.2 = none := h k (by simp [intRangeF])
    have hrest : ∀ j ∈ intRangeF (k + 1) f, (s.getMessage j).2.2 = none := by
      intro j hj
      exact h j (by simp [intRangeF, hj])
    simp only [fileStore.getMessagesLoop, hk]
    by_cases hf : (s.getMessage k).2.1 = true
    · rw [if_pos hf]
      rw [ih (k + 1) (acc ++ [(s.getMessage k).1]) hrest]
      have hro : s.readOk k = some (s.getMessage k).1 := by
        simp [fileStore.readOk, hf, hk]
      simp [intRangeF, List.filterMap_cons, hro, List.append_assoc]
    · rw [if_neg hf]
      rw [ih (k + 1) acc hrest]
      have hb : (s.getMessage k).2.1 = false := Bool.eq_false_iff.mpr hf
      have hro : s.readOk k = none := by
        simp [fileStore.readOk, hb]
      simp [intRangeF, List.filterMap_cons, hro]

lemma getMessagesLoop_fail (s : fileStore) (f : Nat) :
    ∀ (k k0 : Int) (acc : List (List Nat)) (e0 : String),
    k ≤ k0 → k0 < k + f → (s.getMessage k0).2.2 = some e0 →
    (∀ j, k ≤ j → j < k0 → (s.getMessage j).2.2 = none) →
    s.getMessagesLoop k f acc = ([], some e0) := by
  induction f with
  | zero =>
    intro k k0 acc e0 h1 h2 _ _
    push_cast at h2
    omega
  | succ f ih =>
    intro k k0 acc e0 hk1 hk2 herr hnone
    by_cases hkk : k = k0
    · subst hkk
      simp [fileStore.getMessagesLoop, herr]
    · have hlt : k < k0 := lt_of_le_of_ne hk1 hkk
      have hke : (s.getMessage k).2.2 = none := hnone k le_rfl hlt
      simp only [fileStore.getMessagesLoop, hke]
      have hnext : k0 < k + 1 + f := by
        push_cast at hk2 ⊢
        omega
      by_cases hf : (s.getMessage k).2.1 = true
      · rw [if_pos hf]
        exact ih (k + 1) k0 _ e0 (by omega) hnext herr (fun j hj1 hj2 => hnone j (by omega) hj2)
      · rw [if_neg hf]
        exact ih (k + 1) k0 _ e0 (by omega) hnext herr (fun j hj1 hj2 => hnone j (by omega) hj2)

lemma getMessagesLoop_err_nil (s : fileStore) (f : Nat) : ∀ (k : Int) (acc : List (List Nat)),
    (s.getMessagesLoop k f acc).2 ≠ none → (s.getMessagesLoop k f acc).1 = [] := by
  induction f with
  | zero => intro k acc h; exact absurd rfl h
  | succ f ih =>
    intro k acc h
    rcases he : (s.getMessage k).2.2 with _ | e
    · simp only [fileStore.getMessagesLoop, he] at h ⊢
      by_cases hf : (s.getMessage k).2.1 = true
      · rw [if_pos hf] at h ⊢
        exact ih (k + 1) _ h
      · rw [if_neg hf] at h ⊢
        exact ih (k + 1) _ h
    · simp [fileStore.getMessagesLoop, he]

/-! ## Lemmas: small store facts -/

lemma getMessage_congr (a b : fileStore) (k : Int)
    (h1 : a.offsets = b.offsets) (h2 : a.isOpen = b.isOpen) (h3 : a.bodyData = b.bodyData) :
    a.getMessage k = b.getMessage k := by
  unfold fileStore.getMessage
  rw [h1, h2, h3]

lemma setSeqNum_cache (s : fileStore) (w : CounterFile) (n : Int) (osFail : Bool) :
    (s.setSeqNum w n osFail).1.cache = s.cache := by
  cases w <;> by_cases h1 : s.isOpen <;> by_cases h2 : osFail = true <;>
    simp [fileStore.setSeqNum, h1, h2]

lemma setSeqNum_fail_err (s : fileStore) (w : CounterFile) (n : Int) :
    (s.setSeqNum w n true).2 ≠ none := by
  cases w <;> by_cases h1 : s.isOpen <;> simp [fileStore.setSeqNum, h1]

lemma populateCache_err (s : fileStore) : (s.populateCache).2.2 = none := rfl

lemma populateCache_offsets (s : fileStore) :
    (s.populateCache).1.offsets =
      (match s.disk.header with
       | some c => applyEntries s.offsets (scanHeaderFull c)
       | none => s.offsets) := by
  rcases s with ⟨cache, offs, ⟨db, dh, ds, dsn, dtn⟩, op⟩
  cases dh <;> cases ds <;> cases dsn <;> cases dtn <;>
    simp only [fileStore.populateCache] <;>
    (repeat' split) <;> rfl

lemma openFiles_isOpen (s : fileStore) : (s.openFiles).isOpen = true := rfl

lemma refresh_err_none (s : fileStore) (now : Nat) (sf tf : Bool) :
    (s.Refresh now false sf tf).2 = none := by
  unfold fileStore.Refresh
  by_cases hp : ((({ s with cache := memoryStore.Reset now }).Close).1.populateCache).2.1 = true
  · simp [hp]
  · simp [hp, fileStore.setSession, fileStore.openFiles]

lemma refresh_err_indep (s : fileStore) (now : Nat) (sessFail sf tf : Bool) :
    (s.Refresh now sessFail sf tf).2 = (s.Refresh now sessFail false false).2 := by
  unfold fileStore.Refresh
  by_cases hp : ((({ s with cache := memoryStore.Reset now }).Close).1.populateCache).2.1 = true
  · simp [hp]
  · cases sessFail <;> simp [hp, fileStore.setSession, fileStore.openFiles]

lemma refresh_surfaces_session_failure (s : fileStore) (now : Nat) (sf tf : Bool)
    (hnp : ((({ s with cache := memoryStore.Reset now }).Close).1.populateCache).2.1 = false) :
    (s.Refresh now true sf tf).2 ≠ none := by
  unfold fileStore.Refresh
  simp [hnp, fileStore.setSession, fileStore.openFiles]

lemma setSession_fail_err (s : fileStore) : (s.setSession true).2 ≠ none := by
  by_cases h1 : s.isOpen <;> simp [fileStore.setSession, h1]

lemma saveMessage_fail_err (s : fileStore) (seqNum : Int) (msg : List Nat) (j : Fin 6) :
    (s.SaveMessage seqNum msg (some j)).2 ≠ none := by
  by_cases h1 : s.isOpen <;> fin_cases j <;> simp [fileStore.SaveMessage, h1]

lemma setSeqNum_fail_set_sender (s : fileStore) (n : Int) :
    (s.SetNextSenderMsgSeqNum n true).2 ≠ none := by
  unfold fileStore.SetNextSenderMsgSeqNum
  exact setSeqNum_fail_err _ _ _

lemma setSeqNum_fail_set_target (s : fileStore) (n : Int) :
    (s.SetNextTargetMsgSeqNum n true).2 ≠ none := by
  unfold fileStore.SetNextTargetMsgSeqNum
  exact setSeqNum_fail_err _ _ _

lemma setSeqNum_fail_incr_sender (s : fileStore) :
    (s.IncrNextSenderMsgSeqNum true).2 ≠ none := by
  unfold fileStore.IncrNextSenderMsgSeqNum
  exact setSeqNum_fail_err _ _ _

lemma setSeqNum_fail_incr_target (s : fileStore) :
    (s.IncrNextTargetMsgSeqNum true).2 ≠ none := by
  unfold fileStore.IncrNextTargetMsgSeqNum
  exact setSeqNum_fail_err _ _ _

/-! ## The claims -/

/-- Claim C1 (code bug): after `Reset` of a store that had saved a message,
the sequence numbers do return to 1 and the creation time is regenerated,
but `GetMessages 1 1` returns an error instead of an empty sequence: the
`offsets` map is never cleared (neither `Reset` nor `populateCache` empties
it), so a stale index entry survives while the body file is recreated empty
and the indexed read fails. -/
theorem reset_leaves_stale_index_eval :
    demoReset.NextSenderMsgSeqNum = 1 ∧
    demoReset.NextTargetMsgSeqNum = 1 ∧
    demoReset.CreationTime = 2 ∧
    demoSaved.CreationTime = 0 ∧
    (demoReset.GetMessages 1 1).2 ≠ none ∧
    (demoReset.GetMessages 1 1).1 = [] := by
  decide

/-- Claim C2 (code bug): after the `Refresh` performed inside `Reset`, the
in-memory index still holds the entry for seqnum 1 although the current
header file is empty and parses to no entries — the index is merged into,
never replaced wholesale. -/
theorem refresh_keeps_entries_absent_from_header_eval :
    mapGet demoReset.offsets 1 = some ⟨0, 1⟩ ∧
    demoReset.disk.header = some [] ∧
    scanHeaderFull [] = [] := by
  decide

/-- Claim C3, counterexample: with the sender-counter re-persist inside
`Refresh` failing (injected OS failure), `Refresh` still returns no error,
although the same failing write through `SetNextSenderMsgSeqNum` does
surface an error. -/
theorem refresh_swallows_counter_persist_error :
    (demoFresh.Refresh 3 false true false).2 = none ∧
    (demoFresh.SetNextSenderMsgSeqNum 1 true).2 ≠ none := by
  decide

/-- Claim C3, amended: every injected seek/write/flush failure inside an
operation of the file store is surfaced to that operation's caller — the
four counter mutators, each of the six OS calls of `SaveMessage`, the
session-time write, and `Refresh` itself when it must record the creation
time and that write fails — EXCEPT that `Refresh` discards the errors of its
final unconditional counter re-persist (filestore.go lines 168-169): its
result never depends on those two write outcomes, and with them as the only
failures it returns nil. -/
theorem op_failures_surfaced_except_refresh_repersist (s : fileStore) (now : Nat)
    (n : Int) (msg : List Nat) (j : Fin 6) (sessFail sf tf : Bool) :
    (s.SetNextSenderMsgSeqNum n true).2 ≠ none ∧
    (s.SetNextTargetMsgSeqNum n true).2 ≠ none ∧
    (s.IncrNextSenderMsgSeqNum true).2 ≠ none ∧
    (s.IncrNextTargetMsgSeqNum true).2 ≠ none ∧
    (s.SaveMessage n msg (some j)).2 ≠ none ∧
    (s.setSession true).2 ≠ none ∧
    (((({ s with cache := memoryStore.Reset now }).Close).1.populateCache).2.1 = false →
      (s.Refresh now true sf tf).2 ≠ none) ∧
    (s.Refresh now sessFail sf tf).2 = (s.Refresh now sessFail false false).2 ∧
    (s.Refresh now false sf tf).2 = none :=
  ⟨setSeqNum_fail_set_sender s n, setSeqNum_fail_set_target s n,
   setSeqNum_fail_incr_sender s, setSeqNum_fail_incr_target s,
   saveMessage_fail_err s n msg j, setSession_fail_err s,
   fun hnp => refresh_surfaces_session_failure s now sf tf hnp,
   refresh_err_indep s now sessFail sf tf,
   refresh_err_none s now sf tf⟩

/-- Claim C8: the four sequence-number mutators update the in-memory cache
before the durable counter-file write, so the cached value reflects the
caller's intent regardless of the write outcome `osFail` (even when an
error is returned). -/
theorem seqnum_cache_updated_before_persist (s : fileStore) (n : Int) (osFail : Bool) :
    (s.SetNextSenderMsgSeqNum n osFail).1.NextSenderMsgSeqNum = n ∧
    (s.SetNextTargetMsgSeqNum n osFail).1.NextTargetMsgSeqNum = n ∧
    (s.IncrNextSenderMsgSeqNum osFail).1.NextSenderMsgSeqNum = s.NextSenderMsgSeqNum + 1 ∧
    (s.IncrNextTargetMsgSeqNum osFail).1.NextTargetMsgSeqNum = s.NextTargetMsgSeqNum + 1 := by
  refine ⟨?_, ?_, ?_, ?_⟩ <;>
    simp [fileStore.SetNextSenderMsgSeqNum, fileStore.SetNextTargetMsgSeqNum,
      fileStore.IncrNextSenderMsgSeqNum, fileStore.IncrNextTargetMsgSeqNum,
      fileStore.NextSenderMsgSeqNum, fileStore.NextTargetMsgSeqNum,
      memoryStore.NextSenderMsgSeqNum, memoryStore.NextTargetMsgSeqNum,
      memoryStore.SetNextSenderMsgSeqNum, memoryStore.SetNextTargetMsgSeqNum,
      memoryStore.IncrNextSenderMsgSeqNum, memoryStore.IncrNextTargetMsgSeqNum,
      setSeqNum_cache]

/-- Claim C9, counterexample: the first `setSeqNum` write onto a counter file
that was just created empty (exactly the state `Refresh` produces on a
first-ever open) changes the file length from 0 to 19, so "a write never
changes the file length" fails as stated. -/
theorem counter_first_write_changes_length :
    ((counterDemo.SetNextSenderMsgSeqNum 1 false).1.disk.senderSeqNums.getD []).length ≠
      (counterDemo.disk.senderSeqNums.getD []).length := by
  decide

/-- Claim C9, amended: for every value representable in the fixed 19-digit
width (every nonnegative 64-bit int), a `setSeqNum` write leaves the counter
file at exactly 19 characters whenever the previous content was at most 19
characters (as the store always maintains) — hence consecutive writes never
change the length — and parsing the resulting content yields the written
value. -/
theorem counter_write_fixed_width_roundtrip (old : List Char) (i : Int)
    (hlen : old.length ≤ 19) (h0 : 0 ≤ i) (hr : i < 2 ^ 63) :
    (counterWrite old i).length = 19 ∧ atoi (counterWrite old i) = some i :=
  counterWrite_spec_aux old i hlen h0 hr

/-- Witness for the amended C9 at a concrete input. -/
theorem counter_write_fixed_width_roundtrip_witness :
    (counterWrite (List.replicate 19 '0') 42).length = 19 ∧
      atoi (counterWrite (List.replicate 19 '0') 42) = some 42 :=
  counter_write_fixed_width_roundtrip (List.replicate 19 '0') 42 (by decide) (by decide)
    (by decide)

/-- Claim C10: when `GetMessages` returns an error, the returned message
list is empty (messages gathered for earlier seqnums are discarded), and
`getMessage` reports an error only together with `found = true` and a
present index entry — `found` signals index presence, not read success. -/
theorem getMessages_error_drops_gathered (s : fileStore) (b e k : Int) :
    ((s.GetMessages b e).2 ≠ none → (s.GetMessages b e).1 = []) ∧
    ((s.getMessage k).2.2 ≠ none → (s.getMessage k).2.1 = true ∧ mapGet s.offsets k ≠ none) := by
  constructor
  · intro h
    exact getMessagesLoop_err_nil s _ b [] h
  · intro h
    rcases hg : mapGet s.offsets k with _ | d
    · simp [fileStore.getMessage, hg] at h
    · refine ⟨?_, by simp [hg]⟩
      by_cases hop : s.isOpen = true
      · rcases hra : readAt s.bodyData d.offset d.size with _ | m
        · simp [fileStore.getMessage, hg, hop, hra]
        · simp [fileStore.getMessage, hg, hop, hra] at h
      · have hop2 : s.isOpen = false := Bool.eq_false_iff.mpr hop
        simp [fileStore.getMessage, hg, hop2]

/-- Witness for C10 at a concrete input: seqnum 1 reads fine, seqnum 2 has an
index entry pointing past the end of the body, so the whole range errors and
the partial result is discarded. -/
theorem getMessages_error_drops_gathered_witness :
    (badReadStore.GetMessages 1 2).2 ≠ none ∧
    (badReadStore.GetMessages 1 2).1 = [] ∧
    (badReadStore.getMessage 2).2.1 = true ∧
    mapGet badReadStore.offsets 2 ≠ none := by
  refine ⟨by decide, ?_, ?_, ?_⟩
  · exact (getMessages_error_drops_gathered badReadStore 1 2 2).1 (by decide)
  · exact ((getMessages_error_drops_gathered badReadStore 1 2 2).2 (by decide)).1
  · exact ((getMessages_error_drops_gathered badReadStore 1 2 2).2 (by decide)).2

/-- Claim C6: `GetMessages b e` walks the inclusive range `[b, e]` in
increasing order: an empty range (`b > e`) yields an empty result with no
error; when no read in the range errors, the result is exactly the messages
of the seqnums that are present (readable gaps are silently skipped), in
range order; the first read error in the range aborts the walk with that
error; and (error-free) presence of a result for a seqnum coincides with
the presence of its index entry. -/
theorem getMessages_range_spec (s : fileStore) (b e k0 : Int) (e0 : String) :
    (b > e → s.GetMessages b e = ([], none)) ∧
    ((∀ j ∈ intRange b e, (s.getMessage j).2.2 = none) →
      s.GetMessages b e = ((intRange b e).filterMap s.readOk, none)) ∧
    (k0 ∈ intRange b e → (s.getMessage k0).2.2 = some e0 →
      (∀ j ∈ intRange b e, j < k0 → (s.getMessage j).2.2 = none) →
      s.GetMessages b e = ([], some e0)) ∧
    ((s.getMessage k0).2.2 = none → ((s.readOk k0).isSome ↔ (mapGet s.offsets k0).isSome)) := by
  refine ⟨?_, ?_, ?_, ?_⟩
  · intro hbe
    have h0 : (e + 1 - b).toNat = 0 := Int.toNat_eq_zero.mpr (by omega)
    unfold fileStore.GetMessages
    rw [h0]
    rfl
  · intro h
    unfold intRange at h
    unfold fileStore.GetMessages intRange
    rw [getMessagesLoop_ok s _ b [] h]
    simp
  · intro hmem herr hnone
    unfold intRange at hmem hnone
    rw [mem_intRangeF] at hmem
    unfold fileStore.GetMessages
    apply getMessagesLoop_fail s _ b k0 [] e0 hmem.1 hmem.2 herr
    intro j hj1 hj2
    apply hnone j _ hj2
    rw [mem_intRangeF]
    omega
  · intro he
    rcases hg : mapGet s.offsets k0 with _ | d
    · simp [fileStore.readOk, fileStore.getMessage, hg]
    · by_cases hop : s.isOpen = true
      · rcases hra : readAt s.bodyData d.offset d.size with _ | m
        · simp [fileStore.getMessage, hg, hop, hra] at he
        · simp [fileStore.readOk, fileStore.getMessage, hg, hop, hra]
      · have hop2 : s.isOpen = false := Bool.eq_false_iff.mpr hop
        simp [fileStore.getMessage, hg, hop2] at he

/-- Witness for C6 at concrete inputs: messages at seqnums 1 and 3 with a gap
at 2 are returned in increasing order, and an inverted range is empty. -/
theorem getMessages_range_spec_witness :
    demoGap.GetMessages 1 3 = ([[65], [67]], none) ∧
    demoGap.GetMessages 4 1 = ([], none) := by
  constructor
  · have h := (getMessages_range_spec demoGap 1 3 0 "").2.1 (by decide)
    rw [h]
    decide
  · exact (getMessages_range_spec demoGap 4 1 0 "").1 (by decide)

/-- Claim C7, counterexample: a header whose intended second line
`"1,0,23\n"` was truncated by a crash to `"1,0,2"` (a short line). The claim
says the scan terminates at that short line, indexing only the first line's
entry — but the `Fscanf` format's `\n` matches the end of the input, so the
truncated line scans as a full (wrong) entry `(1, 0, 2)` and lands in the
index. -/
theorem truncated_trailing_line_parsed_as_entry :
    scanHeaderFull (encodeEntries [(2, 5, 7)] ++ ['1', ',', '0', ',', '2']) =
      [(2, 5, 7), (1, 0, 2)] ∧
    mapGet ((headerTruncDemo.populateCache).1.offsets) 1 = some ⟨0, 2⟩ := by
  decide

/-- Claim C7, amended: during the index rebuild of `populateCache`, the
header content is scanned from the start in the exact 3-field line format;
the scan terminates, without raising an error, at the first point where the
3-int scan fails, every entry parsed before that point lands in the index,
and when a seqnum occurs on several parsed lines the last one scanned
determines its entry. A crash-truncated trailing line that still scans as
three ints does NOT terminate the scan, however: the format's newline
matches the end of the input, so such a line is consumed as an entry. -/
theorem populateCache_header_scan_spec (good : List (Int × Int × Int))
    (badTail : List Char) (s : fileStore) (k : Int)
    (hfits : ∀ e ∈ good, entryFits e)
    (hbad : scanStops badTail = true)
    (hhdr : s.disk.header = some (encodeEntries good ++ badTail)) :
    (s.populateCache).2.2 = none ∧
    (s.populateCache).1.offsets = applyEntries s.offsets good ∧
    mapGet (s.populateCache).1.offsets k =
      (match lastEntry good k with
       | some d => some d
       | none => mapGet s.offsets k) := by
  have hoff : (s.populateCache).1.offsets = applyEntries s.offsets good := by
    simp only [populateCache_offsets, hhdr, scanHeaderFull_encode good badTail hfits hbad]
  exact ⟨populateCache_err s, hoff, by rw [hoff, applyEntries_get]⟩

/-- Witness for the amended C7 at a concrete input: two parsed lines for
seqnum 1 followed by a line at which the scan fails; the scan stops there,
reports no error, and the entry for 1 is the one of the later line. -/
theorem populateCache_header_scan_spec_witness :
    (headerDemo.populateCache).2.2 = none ∧
    (headerDemo.populateCache).1.offsets = applyEntries headerDemo.offsets [(1, 0, 2), (1, 2, 3)] ∧
    mapGet (headerDemo.populateCache).1.offsets 1 =
      (match lastEntry [(1, 0, 2), (1, 2, 3)] 1 with
       | some d => some d
       | none => mapGet headerDemo.offsets 1) :=
  populateCache_header_scan_spec [(1, 0, 2), (1, 2, 3)] ['x', '\n'] headerDemo 1
    (by decide) (by decide) (by decide)

/-- Claim C5: a successful `SaveMessage` on an open store returns no error,
appends the message bytes at the body file's previous end, appends exactly
the line `"<seqNum>,<offset>,<size>\n"` to the header file, points the index
entry for the seqnum at `(offset, size)`, leaves the session and counter
files untouched, and grows both file lengths monotonically. -/
theorem saveMessage_effects (s : fileStore) (seqNum : Int) (msg : List Nat)
    (hopen : s.isOpen = true) :
    (s.SaveMessage seqNum msg none).2 = none ∧
    (s.SaveMessage seqNum msg none).1.disk.body = some (s.bodyData ++ msg) ∧
    (s.SaveMessage seqNum msg none).1.disk.header =
      some (s.headerData ++ headerLine seqNum (s.bodyData.length : Int) (msg.length : Int)) ∧
    (s.SaveMessage seqNum msg none).1.offsets =
      mapInsert s.offsets seqNum ⟨(s.bodyData.length : Int), (msg.length : Int)⟩ ∧
    mapGet (s.SaveMessage seqNum msg none).1.offsets seqNum =
      some ⟨(s.bodyData.length : Int), (msg.length : Int)⟩ ∧
    (s.SaveMessage seqNum msg none).1.disk.session = s.disk.session ∧
    (s.SaveMessage seqNum msg none).1.disk.senderSeqNums = s.disk.senderSeqNums ∧
    (s.SaveMessage seqNum msg none).1.disk.targetSeqNums = s.disk.targetSeqNums ∧
    s.bodyData.length ≤ (s.SaveMessage seqNum msg none).1.bodyData.length ∧
    s.headerData.length ≤ (s.SaveMessage seqNum msg none).1.headerData.length := by
  refine ⟨?_, ?_, ?_, ?_, ?_, ?_, ?_, ?_, ?_, ?_⟩ <;>
    simp [fileStore.SaveMessage, hopen, fileStore.bodyData, fileStore.headerData,
      mapGet_insert_self]

/-- Witness for C5 at a concrete input. -/
theorem saveMessage_effects_witness :
    (demoFresh.SaveMessage 1 [65] none).2 = none ∧
    (demoFresh.SaveMessage 1 [65] none).1.disk.body = some (demoFresh.bodyData ++ [65]) ∧
    (demoFresh.SaveMessage 1 [65] none).1.disk.header =
      some (demoFresh.headerData ++
        headerLine 1 (demoFresh.bodyData.length : Int) (([65] : List Nat).length : Int)) ∧
    (demoFresh.SaveMessage 1 [65] none).1.offsets =
      mapInsert demoFresh.offsets 1
        ⟨(demoFresh.bodyData.length : Int), (([65] : List Nat).length : Int)⟩ ∧
    mapGet (demoFresh.SaveMessage 1 [65] none).1.offsets 1 =
      some ⟨(demoFresh.bodyData.length : Int), (([65] : List Nat).length : Int)⟩ ∧
    (demoFresh.SaveMessage 1 [65] none).1.disk.session = demoFresh.disk.session ∧
    (demoFresh.SaveMessage 1 [65] none).1.disk.senderSeqNums = demoFresh.disk.senderSeqNums ∧
    (demoFresh.SaveMessage 1 [65] none).1.disk.targetSeqNums = demoFresh.disk.targetSeqNums ∧
    demoFresh.bodyData.length ≤ (demoFresh.SaveMessage 1 [65] none).1.bodyData.length ∧
    demoFresh.headerData.length ≤ (demoFresh.SaveMessage 1 [65] none).1.headerData.length :=
  saveMessage_effects demoFresh 1 [65] (by decide)

/-- Claim C4: closing a store and constructing a new store over the same
directory contents restores the same cache (both next seqnums and the
creation time) and the same index, and `getMessage` answers identically for
every seqnum. The hypotheses say the store is open and its disk reflects its
in-memory state — the invariant every store reached through the public
operations maintains: the index equals the parse of the header file, the
session file unmarshals to the cached creation time, and each counter file
parses to the cached counter. -/
theorem filestore_close_reopen_roundtrip (s : fileStore) (now2 : Nat) (k : Int)
    (hc sc nc tc : List Char)
    (hopen : s.isOpen = true)
    (hhdr : s.disk.header = some hc)
    (hidx : applyEntries [] (scanHeaderFull hc) = s.offsets)
    (hsess : s.disk.session = some sc)
    (hsessv : unmarshalTime sc = some s.cache.creationTime)
    (hsnd : s.disk.senderSeqNums = some nc)
    (hsndv : atoi nc = some s.cache.senderMsgSeqNum)
    (htgt : s.disk.targetSeqNums = some tc)
    (htgtv : atoi tc = some s.cache.targetMsgSeqNum) :
    (newFileStore ((s.Close).1.disk) now2 false false false).2 = none ∧
    (newFileStore ((s.Close).1.disk) now2 false false false).1.cache = s.cache ∧
    (newFileStore ((s.Close).1.disk) now2 false false false).1.offsets = s.offsets ∧
    (newFileStore ((s.Close).1.disk) now2 false false false).1.getMessage k = s.getMessage k := by
  have hres : newFileStore ((s.Close).1.disk) now2 false false false =
      ({ cache := s.cache,
         offsets := s.offsets,
         disk := { body := some (s.disk.body.getD []),
                   header := some hc,
                   session := some sc,
                   senderSeqNums := some (counterWrite nc s.cache.senderMsgSeqNum),
                   targetSeqNums := some (counterWrite tc s.cache.targetMsgSeqNum) },
         isOpen := true }, none) := by
    simp [newFileStore, fileStore.Refresh, fileStore.Close, fileStore.populateCache,
      fileStore.openFiles, fileStore.setSession, fileStore.SetNextSenderMsgSeqNum,
      fileStore.SetNextTargetMsgSeqNum, fileStore.setSeqNum, fileStore.NextSenderMsgSeqNum,
      fileStore.NextTargetMsgSeqNum, memoryStore.Reset, memoryStore.SetNextSenderMsgSeqNum,
      memoryStore.SetNextTargetMsgSeqNum, memoryStore.NextSenderMsgSeqNum,
      memoryStore.NextTargetMsgSeqNum, hhdr, hsess, hsessv, hsnd, hsndv, htgt, htgtv, hidx]
  rw [hres]
  refine ⟨rfl, rfl, rfl, ?_⟩
  apply getMessage_congr
  · rfl
  · exact hopen.symm
  · rfl

/-- Witness for C4 at a concrete input: the store that saved one message. -/
theorem filestore_close_reopen_roundtrip_witness :
    (newFileStore ((demoSaved.Close).1.disk) 9 false false false).2 = none ∧
    (newFileStore ((demoSaved.Close).1.disk) 9 false false false).1.cache = demoSaved.cache ∧
    (newFileStore ((demoSaved.Close).1.disk) 9 false false false).1.offsets = demoSaved.offsets ∧
    (newFileStore ((demoSaved.Close).1.disk) 9 false false false).1.getMessage 1 =
      demoSaved.getMessage 1 :=
  filestore_close_reopen_roundtrip demoSaved 9 1
    ['1', ',', '0', ',', '1', '\n'] ['0'] (fmt019 1) (fmt019 1)
    (by decide) (by decide) (by decide) (by decide) (by decide) (by decide) (by decide)
    (by decide) (by decide)
